import Mathlib

/-!
Shallow embedding of the SQL connection pool `TSqlDatabasePool`
(file tsqldatabasepool.cpp of the treefrog framework) and proofs of the
specified properties.

Strings are modelled as `List Char`.  Qt container/string operations used by
the source (`QString::trimmed`, `QString::split` with `SkipEmptyParts`,
`QString::mid`, `QString::toInt`, `sprintf("%02d_%d")`) are embedded as
executable Lean functions below.  The concurrent stacks `TStack<QString>`
are modelled as lists with head = top of stack; in the sequential
(quiescent-interleaving) model every `push`/`pop` is atomic, which is the
granularity the claims speak about.
-/

namespace TreefrogPool

/-- Embedding of QChar::isSpace restricted to the ASCII range
(space and the control characters 0x09..0x0D). -/
def isQtSpace (c : Char) : Bool := c == ' ' || (9 ≤ c.toNat && c.toNat ≤ 13)

/-- Embedding of QString::trimmed: removes leading and trailing whitespace. -/
def trim (s : List Char) : List Char :=
  (((s.dropWhile isQtSpace).reverse).dropWhile isQtSpace).reverse

/-- Splits a string at every occurrence of the separator character,
keeping empty parts (QString::split with KeepEmptyParts). -/
def splitOnChar (sep : Char) : List Char → List (List Char)
  | [] => [[]]
  | c :: rest =>
    match splitOnChar sep rest with
    | [] => [[]]
    | p :: ps => if c = sep then [] :: p :: ps else (c :: p) :: ps

/-- Embedding of `.split(";", QString::SkipEmptyParts)`: split on the
separator and drop empty fragments. -/
def splitSkipEmpty (sep : Char) (s : List Char) : List (List Char) :=
  (splitOnChar sep s).filter (fun p => ¬ p.isEmpty)

/-- Embedding of line 230 of the source: the PostOpenStatements
configuration value is trimmed as a whole and split on ';' with
SkipEmptyParts. -/
def parsePostOpen (s : List Char) : List (List Char) :=
  splitSkipEmpty ';' (trim s)

/-- Parse of the PostOpenStatements value following the SPEC'S WORDS
(for comparison with `parsePostOpen`, which follows the source):
"split on ';', dropping empty fragments and trimming whitespace per
fragment". -/
def specParsePostOpen (s : List Char) : List (List Char) :=
  ((splitOnChar ';' s).filter (fun p => ¬ p.isEmpty)).map trim

/-- Decimal digits, least significant first, with an explicit fuel bound
so the definition is structurally recursive (any fuel above the value
suffices). -/
def natDigitsRevGo : Nat → Nat → List Char
  | _, 0 => ['0']
  | 0, _ + 1 => []
  | fuel + 1, n + 1 =>
    if n + 1 < 10 then [Char.ofNat (48 + (n + 1))]
    else Char.ofNat (48 + (n + 1) % 10) :: natDigitsRevGo fuel ((n + 1) / 10)

/-- Decimal digits of a natural number, least significant first. -/
def natDigitsRev (n : Nat) : List Char := natDigitsRevGo n n

/-- Decimal representation of a natural number, most significant digit
first — the embedding of sprintf's `%d` for a non-negative int. -/
def natDecimal (n : Nat) : List Char := (natDigitsRev n).reverse

/-- Embedding of sprintf's `%02d`: decimal representation left-padded
with '0' to a minimum width of two. -/
def pad2 (n : Nat) : List Char :=
  let s := natDecimal n
  if s.length < 2 then '0' :: s else s

/-- Embedding of `QString().sprintf(CONN_NAME_FORMAT, j, i)` with
`CONN_NAME_FORMAT = "rdb%02d_%d"` (line 20): the connection name of slot
`i` of database `j`. -/
def connName (j i : Nat) : List Char :=
  'r' :: 'd' :: 'b' :: (pad2 j ++ '_' :: natDecimal i)

/-- Embedding of QString::mid(pos, len). -/
def strMid (s : List Char) (pos len : Nat) : List Char := (s.drop pos).take len

/-- Accumulating decimal parser over a digit string; fails on the first
non-digit character. -/
def parseDigitsAux (acc : Nat) : List Char → Option Nat
  | [] => some acc
  | c :: cs => if c.isDigit then parseDigitsAux (acc * 10 + (c.toNat - 48)) cs else none

/-- Parses a non-empty all-digit string as a natural number. -/
def parseDigits? (s : List Char) : Option Nat :=
  match s with
  | [] => none
  | _ => parseDigitsAux 0 s

/-- Embedding of QString::toInt (C locale): an optional sign followed by
decimal digits; `none` models `ok == false`. -/
def qstringToInt? (s : List Char) : Option Int :=
  match s with
  | [] => none
  | c :: rest =>
    if c = '-' then (parseDigits? rest).map (fun n => -(n : Int))
    else if c = '+' then (parseDigits? rest).map (fun n => (n : Int))
    else (parseDigits? (c :: rest)).map (fun n => (n : Int))

/-- Embedding of TSqlDatabasePool::getDatabaseId (lines 304-313): parse
`connectionName().mid(3,2)` as an int; return it when the parse succeeded
and the value is non-negative, and -1 otherwise. -/
def getDatabaseId (name : List Char) : Int :=
  match qstringToInt? (strMid name 3 2) with
  | some id => if 0 ≤ id then id else -1
  | none => -1

/-- Decidable matcher for the exact regex `rdb[0-9]{2}_[0-9]+` from the
spec's connection-name grammar. -/
def matchesConnRegex (s : List Char) : Bool :=
  match s with
  | a :: b :: c :: d1 :: d2 :: u :: rest =>
    a = 'r' && b = 'd' && c = 'b' && d1.isDigit && d2.isDigit && u = '_' &&
      !rest.isEmpty && rest.all Char.isDigit
  | _ => false

/-! ## Pool state and the borrow/return engine -/

/-- Model of a QSqlDatabase value as seen by the pool: validity flag and
connection name.  The default-constructed `QSqlDatabase()` is
`⟨false, []⟩`. -/
structure DbHandle where
  valid : Bool
  name : List Char
deriving DecidableEq, Repr

/-- The invalid handle `QSqlDatabase()`. -/
def invalidHandle : DbHandle := ⟨false, []⟩

/-- Environment of the pool: host-application predicates and driver
oracles.  `openOk n` tells whether `open()` on the slot named `n` would
succeed; `postOpen n` is the list of post-open statements stored on slot
`n` by the setup applier.  The registry's open flags live in `PoolState`
because the pool's operations change them. -/
structure Env where
  sqlAvailable : Bool
  settingsCount : Nat
  openOk : List Char → Bool
  postOpen : List Char → List (List Char)

/-- The pool's mutable state: per-database stacks `availableNames` and
`cachedDatabase` (head of list = top of stack), the per-database atomic
`lastCachedTime`, and the registry's open flag per connection name. -/
structure PoolState where
  available : Nat → List (List Char)
  cached : Nat → List (List Char)
  lastCachedTime : Nat → Nat
  openNames : List Char → Bool

/-- Pointwise update of an index-function. -/
def updFn {α : Type} (f : Nat → α) (i : Nat) (v : α) : Nat → α :=
  fun j => if j = i then v else f j

/-- Pointwise update of the open flag of one connection name. -/
def setOpen (f : List Char → Bool) (n : List Char) (b : Bool) : List Char → Bool :=
  fun m => if m = n then b else f m

/-- Outcome of the `for(;;)` loop of TSqlDatabasePool::database:
the new cached stack, the new available stack, and either
`some (handle, executedStatements, openedFlag)` when the loop returns
(`openedFlag` records that `open()` was called and succeeded), or `none`
when both stacks are empty and the loop spins (busy wait). -/
structure LoopOut where
  cached : List (List Char)
  available : List (List Char)
  outcome : Option (DbHandle × List (List Char) × Bool)
deriving Repr

/-- Embedding of the `for(;;)` loop of TSqlDatabasePool::database
(lines 131-172), sequential interleaving: pop from cached first; an open
cached handle is returned (fast path); a closed cached name is pushed
onto available and the loop continues; otherwise pop from available: an
already-open handle is returned with a warning; else `open()` is tried —
on failure the name is pushed back and `QSqlDatabase()` is returned, on
success the trimmed post-open statements are executed in order and the
handle is returned. -/
def acquireLoop (isOpen openOk : List Char → Bool)
    (postOpen : List Char → List (List Char)) :
    List (List Char) → List (List Char) → LoopOut
  | [], [] => ⟨[], [], none⟩
  | [], n :: rest =>
    if isOpen n then ⟨[], rest, some (⟨true, n⟩, [], false)⟩
    else if openOk n then ⟨[], rest, some (⟨true, n⟩, (postOpen n).map trim, true)⟩
    else ⟨[], n :: rest, some (invalidHandle, [], false)⟩
  | c :: cs, avail =>
    if isOpen c then ⟨cs, avail, some (⟨true, c⟩, [], false)⟩
    else acquireLoop isOpen openOk postOpen cs (c :: avail)

/-- Result of an acquire: a handle together with the statements it
executed, a raised RuntimeException, or an endless busy wait. -/
inductive AcquireResult where
  | handle (h : DbHandle) (executed : List (List Char))
  | raised (msg : List Char)
  | spin
deriving DecidableEq, Repr

/-- Embedding of TSqlDatabasePool::database (lines 119-175): with the
subsystem unavailable return `QSqlDatabase()`; with `databaseId` in
`[0, settingsCount)` run the loop (recording the successful `open()` in
the registry's open flags); otherwise throw
`RuntimeException("No pooled connection")`. -/
def database (env : Env) (s : PoolState) (databaseId : Int) :
    PoolState × AcquireResult :=
  if env.sqlAvailable = false then (s, .handle invalidHandle [])
  else if 0 ≤ databaseId ∧ databaseId < (env.settingsCount : Int) then
    let j := databaseId.toNat
    let r := acquireLoop s.openNames env.openOk env.postOpen (s.cached j) (s.available j)
    let s' : PoolState := { s with cached := updFn s.cached j r.cached,
                                   available := updFn s.available j r.available }
    match r.outcome with
    | none => (s', .spin)
    | some (h, ex, opened) =>
      (if opened then { s' with openNames := setOpen s'.openNames h.name true } else s',
       .handle h ex)
  else (s, .raised ("No pooled connection".toList))

/-- Embedding of TSqlDatabasePool::closeDatabase (lines 294-301): close
the handle and push its name onto `availableNames[getDatabaseId(db)]`.
Callers guarantee the name parses to a valid index (`getDatabaseId ≥ 0`). -/
def closeDatabase (s : PoolState) (db : DbHandle) : PoolState :=
  let id := (getDatabaseId db.name).toNat
  { s with openNames := setOpen s.openNames db.name false,
           available := updFn s.available id (db.name :: s.available id) }

/-- Embedding of TSqlDatabasePool::pool (lines 247-267): for a valid
handle whose name parses to an in-range index, either force-close it
(push onto available) or pool it (push onto cached, stamp
`lastCachedTime` with the current epoch second truncated to uint); in
every case the caller's handle variable is overwritten with
`QSqlDatabase()`. -/
def pool (env : Env) (now : Nat) (s : PoolState) (db : DbHandle)
    (forceClose : Bool) : PoolState × DbHandle :=
  let s' :=
    if db.valid then
      let id := getDatabaseId db.name
      if 0 ≤ id ∧ id < (env.settingsCount : Int) then
        if forceClose then closeDatabase s db
        else { s with
                 cached := updFn s.cached id.toNat (db.name :: s.cached id.toNat),
                 lastCachedTime := updFn s.lastCachedTime id.toNat (now % 2 ^ 32) }
      else s
    else s
  (s', invalidHandle)

/-- The uint value `(uint)std::time(nullptr) - 30` computed by the reaper
(line 282), with 32-bit wraparound. -/
def tickThreshold (now : Nat) : Nat := (now % 2 ^ 32 + 2 ^ 32 - 30) % 2 ^ 32

/-- Closes a list of handles in order via `closeDatabase`. -/
def closeList (s : PoolState) : List (List Char) → PoolState
  | [] => s
  | c :: cs => closeList (closeDatabase s ⟨true, c⟩) cs

/-- Per-database body of the reaper tick (lines 276-287): skip an empty
cache; while the last-cached stamp is older than the threshold, pop every
cached name and close it.  In the sequential model the loop condition is
constant during the tick, so the cache is drained completely or not at
all; names are popped top-first. -/
def timerEventOne (now : Nat) (s : PoolState) (i : Nat) : PoolState :=
  if (s.cached i).length = 0 then s
  else if s.lastCachedTime i < tickThreshold now then
    closeList { s with cached := updFn s.cached i [] } (s.cached i)
  else s

/-- Embedding of TSqlDatabasePool::timerEvent (lines 270-291) for the
pool's own timer id: one reaper tick over all configured databases. -/
def timerEvent (settingsCount : Nat) (now : Nat) (s : PoolState) : PoolState :=
  (List.range settingsCount).foldl (timerEventOne now) s

/-! ## Setup applier and init -/

/-- The per-database configuration record read from the settings source
(keys consumed by setDatabaseSettings and init). -/
structure DbSettings where
  driverType : List Char
  databaseName : List Char
  hostName : List Char
  port : Int
  userName : List Char
  password : List Char
  connectOptions : List Char
  postOpenStatements : List Char
  enableUpsert : Bool
deriving Repr

/-- The connection parameters held by one registered slot
(the TSqlDatabase fields that setDatabaseSettings writes). -/
structure SlotConfig where
  databaseName : List Char
  hostName : List Char
  port : Int
  userName : List Char
  password : List Char
  connectOptions : List Char
  postOpenStatements : List (List Char)
  upsertEnabled : Bool
  extensionSet : Bool
deriving DecidableEq, Repr

/-- A freshly added slot before the setup applier runs. -/
def freshSlot : SlotConfig := ⟨[], [], 0, [], [], [], [], false, false⟩

/-- Embedding of QFileInfo::isRelative on a Unix path: relative iff the
path does not start with '/'. -/
def isRelativePath (p : List Char) : Bool :=
  match p with
  | '/' :: _ => false
  | _ => true

/-- Lines 189-198: the SQLite relative-path fix-up followed by
setDatabaseName. -/
def applyDatabaseName (webRootPath : List Char) (isSQLite : Bool)
    (databaseName : List Char) (db : SlotConfig) : SlotConfig :=
  let databaseName :=
    if isSQLite && !databaseName.contains ':' && isRelativePath databaseName then
      webRootPath ++ databaseName
    else databaseName
  { db with databaseName := databaseName }

/-- Lines 200-204: HostName is applied only when non-empty. -/
def applyHostName (st : DbSettings) (db : SlotConfig) : SlotConfig :=
  let hostName := trim st.hostName
  if !hostName.isEmpty then { db with hostName := hostName } else db

/-- Lines 206-210: Port is applied only when positive. -/
def applyPort (st : DbSettings) (db : SlotConfig) : SlotConfig :=
  if 0 < st.port then { db with port := st.port } else db

/-- Lines 212-216: UserName is applied only when non-empty. -/
def applyUserName (st : DbSettings) (db : SlotConfig) : SlotConfig :=
  let userName := trim st.userName
  if !userName.isEmpty then { db with userName := userName } else db

/-- Lines 218-222: Password is applied only when non-empty. -/
def applyPassword (st : DbSettings) (db : SlotConfig) : SlotConfig :=
  let password := trim st.password
  if !password.isEmpty then { db with password := password } else db

/-- Lines 224-228: ConnectOptions is applied only when non-empty. -/
def applyConnectOptions (st : DbSettings) (db : SlotConfig) : SlotConfig :=
  let connectOptions := trim st.connectOptions
  if !connectOptions.isEmpty then { db with connectOptions := connectOptions } else db

/-- Lines 230-234: the parsed PostOpenStatements list is stored only when
non-empty. -/
def applyPostOpen (st : DbSettings) (db : SlotConfig) : SlotConfig :=
  let postOpenStatements := parsePostOpen st.postOpenStatements
  if !postOpenStatements.isEmpty then
    { db with postOpenStatements := postOpenStatements }
  else db

/-- Lines 236-241: EnableUpsert is recorded and the driver extension is
attached. -/
def applyUpsertAndExtension (st : DbSettings) (db : SlotConfig) : SlotConfig :=
  { db with upsertEnabled := st.enableUpsert, extensionSet := true }

/-- Embedding of TSqlDatabasePool::setDatabaseSettings (lines 178-244):
returns `(false, db)` when the trimmed DatabaseName is empty; otherwise
applies the SQLite relative-path fix-up, sets DatabaseName, applies
HostName / Port / UserName / Password / ConnectOptions only when
non-empty (Port only when positive), stores the parsed
PostOpenStatements when non-empty, records EnableUpsert and attaches the
driver extension, returning `(true, db)`. -/
def setDatabaseSettings (webRootPath : List Char) (isSQLite : Bool)
    (st : DbSettings) (db : SlotConfig) : Bool × SlotConfig :=
  let databaseName := trim st.databaseName
  if databaseName.isEmpty then (false, db)
  else
    (true,
      applyUpsertAndExtension st
        (applyPostOpen st
          (applyConnectOptions st
            (applyPassword st
              (applyUserName st
                (applyPort st
                  (applyHostName st
                    (applyDatabaseName webRootPath isSQLite databaseName db))))))))

/-- Environment of TSqlDatabasePool::init: availability flag, the list of
database settings (`settingsCount` = its length), `maxConnects` (M), and
the driver-registry oracle `addValid j i` telling whether
`TSqlDatabase::addDatabase(type, connName j i)` yields a valid handle. -/
structure InitEnv where
  sqlAvailable : Bool
  settings : List DbSettings
  maxConnects : Nat
  addValid : Nat → Nat → Bool

/-- The settings record of database `j` (out-of-range reads yield the
all-empty record, which init never consults because `j` ranges over the
settings count). -/
def settingsOf (env : InitEnv) (j : Nat) : DbSettings :=
  env.settings.getD j ⟨[], [], [], 0, [], [], [], [], false⟩

/-- The trimmed DriverType of database `j` (the `driverType` helper of
lines 64-74). -/
def driverTypeOf (env : InitEnv) (j : Nat) : List Char :=
  trim (settingsOf env j).driverType

/-- Slot indices registered by the inner loop of init starting at index
`i` with the given fuel: the loop breaks at the first index the driver
registry rejects. -/
def regIndices (f : Nat → Bool) : Nat → Nat → List Nat
  | _, 0 => []
  | i, m + 1 => if f i then i :: regIndices f (i + 1) m else []

/-- Contents of `availableNames[j]` after TSqlDatabasePool::init
(lines 77-116), head = top of stack: nothing when the subsystem is
unavailable or the trimmed DriverType is empty; otherwise the names
`connName j i` for the registered slot indices, pushed in increasing `i`
order (so the stack holds them reversed).  The result of
`setDatabaseSettings` is ignored by init (line 106): the name is pushed
whenever the driver handle is valid. -/
def initAvailable (env : InitEnv) (j : Nat) : List (List Char) :=
  if env.sqlAvailable = false then []
  else if (driverTypeOf env j).isEmpty then []
  else ((regIndices (env.addValid j) 0 env.maxConnects).map (connName j)).reverse

/-- Whether init starts the reaper timer (lines 112-115): the subsystem
is available and at least one configured database has a non-empty
trimmed DriverType. -/
def initTimerStarted (env : InitEnv) : Bool :=
  env.sqlAvailable &&
    (List.range env.settings.length).any (fun j => !(driverTypeOf env j).isEmpty)

/-- Configuration applied to each registered slot of database `j` during
init: `setDatabaseSettings` runs on the fresh slot with the database's
settings (the Bool result is discarded by init). -/
def initSlotConfig (env : InitEnv) (webRootPath : List Char) (isSQLite : Bool)
    (j : Nat) : SlotConfig :=
  (setDatabaseSettings webRootPath isSQLite (settingsOf env j) freshSlot).2

/-! ## Invariant vocabulary -/

/-- Name-conservation invariant for one database: its available stack,
cached stack and the (ghost) multiset of names currently borrowed by
workers are together a permutation of the registered slot names. -/
def registeredInv (names avail cached inUse : List (List Char)) : Prop :=
  (avail ++ cached ++ inUse).Perm names

/-- Names handed to a worker by an acquire outcome: the returned handle's
name when it is valid, nothing otherwise. -/
def acquiredOf : AcquireResult → List (List Char)
  | .handle h _ => if h.valid then [h.name] else []
  | .raised _ => []
  | .spin => []

/-- Names handed to a worker by the loop's outcome (same bookkeeping as
`acquiredOf`, at the loop level). -/
def acquiredOutcome (r : LoopOut) : List (List Char) :=
  match r.outcome with
  | some (h, _, _) => if h.valid then [h.name] else []
  | none => []

/-! ## Decimal representation lemmas -/

theorem digit_isDigit {m : Nat} (h : m < 10) : (Char.ofNat (48 + m)).isDigit = true := by
  interval_cases m <;> decide

theorem digit_toNat {m : Nat} (h : m < 10) : (Char.ofNat (48 + m)).toNat = 48 + m := by
  interval_cases m <;> decide

theorem digit_ne_minus {m : Nat} (h : m < 10) : Char.ofNat (48 + m) ≠ '-' := by
  interval_cases m <;> decide

theorem digit_ne_plus {m : Nat} (h : m < 10) : Char.ofNat (48 + m) ≠ '+' := by
  interval_cases m <;> decide

theorem natDigitsRevGo_fuel (n : Nat) :
    ∀ f1 f2, n ≤ f1 → n ≤ f2 → natDigitsRevGo f1 n = natDigitsRevGo f2 n := by
  induction n using Nat.strong_induction_on with
  | _ n ih =>
    intro f1 f2 h1 h2
    match n, f1, f2 with
    | 0, f1, f2 => cases f1 <;> cases f2 <;> rfl
    | m + 1, g1 + 1, g2 + 1 =>
      simp only [natDigitsRevGo]
      by_cases h : m + 1 < 10
      · rw [if_pos h, if_pos h]
      · rw [if_neg h, if_neg h]
        congr 1
        exact ih ((m + 1) / 10) (Nat.div_lt_self (by omega) (by omega)) g1 g2
          (by omega) (by omega)

theorem natDigitsRev_lt {n : Nat} (h : n < 10) :
    natDigitsRev n = [Char.ofNat (48 + n)] := by
  match n, h with
  | 0, _ => decide
  | m + 1, h =>
    unfold natDigitsRev
    simp [natDigitsRevGo, h]

theorem natDigitsRev_ge {n : Nat} (h : 10 ≤ n) :
    natDigitsRev n = Char.ofNat (48 + n % 10) :: natDigitsRev (n / 10) := by
  match n, h with
  | m + 1, h =>
    unfold natDigitsRev
    simp only [natDigitsRevGo, if_neg (by omega : ¬ m + 1 < 10)]
    congr 1
    exact natDigitsRevGo_fuel ((m + 1) / 10)
      m ((m + 1) / 10) (by omega) le_rfl

theorem natDecimal_lt {n : Nat} (h : n < 10) : natDecimal n = [Char.ofNat (48 + n)] := by
  unfold natDecimal
  rw [natDigitsRev_lt h]
  rfl

theorem natDecimal_ge {n : Nat} (h : 10 ≤ n) :
    natDecimal n = natDecimal (n / 10) ++ [Char.ofNat (48 + n % 10)] := by
  unfold natDecimal
  rw [natDigitsRev_ge h]
  simp

theorem natDecimal_ne_nil (n : Nat) : natDecimal n ≠ [] := by
  by_cases h : n < 10
  · rw [natDecimal_lt h]; simp
  · rw [natDecimal_ge (by omega)]; simp

theorem natDecimal_digits (n : Nat) : ∀ c ∈ natDecimal n, c.isDigit = true := by
  induction n using Nat.strong_induction_on with
  | _ n ih =>
    by_cases h : n < 10
    · rw [natDecimal_lt h]
      intro c hc
      simp at hc
      subst hc
      exact digit_isDigit h
    · rw [natDecimal_ge (by omega)]
      intro c hc
      rcases List.mem_append.1 hc with hl | hr
      · exact ih (n / 10) (Nat.div_lt_self (by omega) (by omega)) c hl
      · simp at hr
        subst hr
        exact digit_isDigit (Nat.mod_lt _ (by omega))

theorem parseDigitsAux_append (xs ys : List Char) :
    ∀ acc, parseDigitsAux acc (xs ++ ys) =
      match parseDigitsAux acc xs with
      | some v => parseDigitsAux v ys
      | none => none := by
  induction xs with
  | nil => intro acc; rfl
  | cons c cs ih =>
    intro acc
    by_cases hc : c.isDigit
    · simp only [List.cons_append, parseDigitsAux, hc, if_pos]
      exact ih _
    · simp only [List.cons_append, parseDigitsAux, hc, if_neg, Bool.false_eq_true,
        not_false_eq_true]

theorem parseDigitsAux_natDecimal (n : Nat) :
    ∀ acc, parseDigitsAux acc (natDecimal n) =
      some (acc * 10 ^ (natDecimal n).length + n) := by
  induction n using Nat.strong_induction_on with
  | _ n ih =>
    intro acc
    by_cases h : n < 10
    · rw [natDecimal_lt h]
      simp [parseDigitsAux, digit_isDigit h, digit_toNat h]
    · rw [natDecimal_ge (by omega)]
      rw [parseDigitsAux_append]
      rw [ih (n / 10) (Nat.div_lt_self (by omega) (by omega)) acc]
      have hm : n % 10 < 10 := Nat.mod_lt _ (by omega)
      simp only [parseDigitsAux, digit_isDigit hm, if_pos, digit_toNat hm,
        List.length_append, List.length_singleton]
      congr 1
      have : 48 + n % 10 - 48 = n % 10 := by omega
      rw [this, pow_succ]
      have hdm := Nat.div_add_mod n 10
      ring_nf
      omega

theorem parseDigits_natDecimal (n : Nat) : parseDigits? (natDecimal n) = some n := by
  rcases h : natDecimal n with _ | ⟨c, cs⟩
  · exact absurd h (natDecimal_ne_nil n)
  · have := parseDigitsAux_natDecimal n 0
    rw [h] at this
    simpa [parseDigits?] using this

theorem natDecimal_injective : Function.Injective natDecimal := by
  intro a b hab
  have ha := parseDigits_natDecimal a
  have hb := parseDigits_natDecimal b
  rw [hab, hb] at ha
  exact (Option.some_injective _ ha).symm

theorem natDecimal_length_two {n : Nat} (h1 : 10 ≤ n) (h2 : n < 100) :
    natDecimal n = [Char.ofNat (48 + n / 10), Char.ofNat (48 + n % 10)] := by
  rw [natDecimal_ge h1, natDecimal_lt (by omega)]
  rfl

theorem pad2_small {n : Nat} (h : n < 10) : pad2 n = ['0', Char.ofNat (48 + n)] := by
  unfold pad2
  rw [natDecimal_lt h]
  rfl

theorem pad2_mid {n : Nat} (h1 : 10 ≤ n) (h2 : n < 100) :
    pad2 n = [Char.ofNat (48 + n / 10), Char.ofNat (48 + n % 10)] := by
  unfold pad2
  rw [natDecimal_length_two h1 h2]
  rfl

theorem pad2_length {n : Nat} (h : n < 100) : (pad2 n).length = 2 := by
  by_cases h1 : n < 10
  · rw [pad2_small h1]; rfl
  · rw [pad2_mid (by omega) h]; rfl

theorem qstringToInt_pad2 {n : Nat} (h : n < 100) :
    qstringToInt? (pad2 n) = some (n : Int) := by
  by_cases h1 : n < 10
  · rw [pad2_small h1]
    simp only [qstringToInt?, if_neg (by decide : ¬ ('0' : Char) = '-'),
      if_neg (by decide : ¬ ('0' : Char) = '+'), parseDigits?]
    simp [parseDigitsAux, digit_isDigit h1, digit_toNat h1, Nat.add_sub_cancel_left]
  · have hd : 10 ≤ n := by omega
    have hq : n / 10 < 10 := by omega
    rw [pad2_mid hd h]
    rw [← natDecimal_length_two hd h]
    rcases hnd : natDecimal n with _ | ⟨c, cs⟩
    · exact absurd hnd (natDecimal_ne_nil n)
    · have hc : c ∈ natDecimal n := by rw [hnd]; simp
      have hcd : c.isDigit = true := natDecimal_digits n c hc
      have hcm : c ≠ '-' := by
        intro hcc; rw [hcc] at hcd; exact absurd hcd (by decide)
      have hcp : c ≠ '+' := by
        intro hcc; rw [hcc] at hcd; exact absurd hcd (by decide)
      simp only [qstringToInt?, if_neg hcm, if_neg hcp]
      rw [← hnd, parseDigits_natDecimal n]
      rfl

theorem strMid_connName (j i : Nat) (h : j < 100) :
    strMid (connName j i) 3 2 = pad2 j := by
  unfold strMid connName
  simp only [List.drop_succ_cons, List.drop_zero]
  rw [List.take_append_of_le_length (by rw [pad2_length h])]
  exact List.take_of_length_le (by rw [pad2_length h])

theorem getDatabaseId_connName (j i : Nat) (h : j < 100) :
    getDatabaseId (connName j i) = (j : Int) := by
  unfold getDatabaseId
  rw [strMid_connName j i h, qstringToInt_pad2 h]
  simp

/-- C8: for every database index d < 100 and every slot index i, the
registered connection name `rdb{d:02}_{i}` matches the regex
`rdb[0-9]{2}_[0-9]+`, and getDatabaseId parses characters 3..4 of the
name back to exactly d. -/
theorem C8_slot_index_round_trip (d i : Nat) (hd : d < 100) :
    matchesConnRegex (connName d i) = true ∧ getDatabaseId (connName d i) = (d : Int) := by
  constructor
  · have hp2 : ∀ c ∈ pad2 d, c.isDigit = true := by
      by_cases h1 : d < 10
      · rw [pad2_small h1]
        intro c hc
        simp only [List.mem_cons, List.not_mem_nil, or_false] at hc
        rcases hc with rfl | rfl
        · decide
        · exact digit_isDigit (by omega)
      · rw [pad2_mid (by omega) hd]
        intro c hc
        simp only [List.mem_cons, List.not_mem_nil, or_false] at hc
        rcases hc with rfl | rfl
        · exact digit_isDigit (by omega)
        · exact digit_isDigit (Nat.mod_lt _ (by omega))
    rcases hp : pad2 d with _ | ⟨c1, cs⟩
    · have := pad2_length hd; rw [hp] at this; simp at this
    rcases cs with _ | ⟨c2, cs2⟩
    · have := pad2_length hd; rw [hp] at this; simp at this
    have hlen : cs2 = [] := by
      have := pad2_length hd; rw [hp] at this; simpa using this
    subst hlen
    unfold connName
    rw [hp]
    have h1 : c1.isDigit = true := hp2 c1 (by rw [hp]; simp)
    have h2 : c2.isDigit = true := hp2 c2 (by rw [hp]; simp)
    simp only [List.cons_append, List.nil_append, matchesConnRegex]
    simp [h1, h2, natDecimal_ne_nil i, List.all_eq_true, List.isEmpty_iff]
    exact natDecimal_digits i
  · exact getDatabaseId_connName d i hd

/-- C8 witness at d = 7, i = 12. -/
theorem C8_slot_index_round_trip_witness :
    7 < 100 ∧ (matchesConnRegex (connName 7 12) = true ∧
      getDatabaseId (connName 7 12) = (7 : Int)) :=
  ⟨by decide, C8_slot_index_round_trip 7 12 (by decide)⟩

/-! ## Acquire: error paths -/

/-- C3: with the database subsystem available and the requested index out
of [0, N), database() throws RuntimeException "No pooled connection"
instead of returning a handle. -/
theorem C3_out_of_range_raises (env : Env) (s : PoolState) (d : Int)
    (hav : env.sqlAvailable = true)
    (hd : d < 0 ∨ (env.settingsCount : Int) ≤ d) :
    database env s d = (s, .raised ("No pooled connection".toList)) := by
  unfold database
  rw [hav]
  rw [if_neg (by simp)]
  rw [if_neg (by omega)]

/-- C3 witness: out-of-range index 5 with one configured database. -/
theorem C3_out_of_range_raises_witness :
    (Env.mk true 1 (fun _ => false) (fun _ => [])).sqlAvailable = true ∧
    ((5 : Int) < 0 ∨ ((Env.mk true 1 (fun _ => false) (fun _ => [])).settingsCount : Int) ≤ 5) ∧
    database (Env.mk true 1 (fun _ => false) (fun _ => []))
      (PoolState.mk (fun _ => []) (fun _ => []) (fun _ => 0) (fun _ => false)) 5 =
    (PoolState.mk (fun _ => []) (fun _ => []) (fun _ => 0) (fun _ => false),
      .raised ("No pooled connection".toList)) :=
  ⟨rfl, by decide, C3_out_of_range_raises _ _ 5 rfl (by decide)⟩

/-- C4 counterexample: with the subsystem unavailable, database() returns
the default-constructed invalid handle — it does not fail with the
"No pooled connection" error the claim requires. -/
theorem C4_counterexample :
    (database (Env.mk false 1 (fun _ => false) (fun _ => []))
      (PoolState.mk (fun _ => []) (fun _ => []) (fun _ => 0) (fun _ => false)) 0).2 =
      .handle invalidHandle [] ∧
    (database (Env.mk false 1 (fun _ => false) (fun _ => []))
      (PoolState.mk (fun _ => []) (fun _ => []) (fun _ => 0) (fun _ => false)) 0).2 ≠
      .raised ("No pooled connection".toList) := by
  refine ⟨rfl, ?_⟩
  intro h
  simp [database] at h

/-- C4 amended: when the subsystem is unavailable, database() returns the
sentinel invalid handle without raising and without touching any pool
state. -/
theorem C4_unavailable_returns_invalid (env : Env) (s : PoolState) (d : Int)
    (h : env.sqlAvailable = false) :
    database env s d = (s, .handle invalidHandle []) := by
  unfold database
  rw [h, if_pos rfl]

/-- C4 witness: unavailable subsystem, index 0. -/
theorem C4_unavailable_returns_invalid_witness :
    (Env.mk false 1 (fun _ => false) (fun _ => [])).sqlAvailable = false ∧
    database (Env.mk false 1 (fun _ => false) (fun _ => []))
      (PoolState.mk (fun _ => []) (fun _ => []) (fun _ => 0) (fun _ => false)) 0 =
    (PoolState.mk (fun _ => []) (fun _ => []) (fun _ => 0) (fun _ => false),
      .handle invalidHandle []) :=
  ⟨rfl, C4_unavailable_returns_invalid _ _ 0 rfl⟩

/-- Every name popped from the cached stack whose handle is closed is
pushed onto the available stack and the loop continues: the loop on a
fully-closed cache behaves like the loop started with the cache drained
onto the available stack. -/
theorem acquireLoop_drain (isOpen openOk : List Char → Bool)
    (postOpen : List Char → List (List Char)) :
    ∀ cached avail, (∀ c ∈ cached, isOpen c = false) →
      acquireLoop isOpen openOk postOpen cached avail =
        acquireLoop isOpen openOk postOpen [] (cached.reverse ++ avail) := by
  intro cached
  induction cached with
  | nil => intro avail _; simp
  | cons c cs ih =>
    intro avail hcl
    have hc : isOpen c = false := hcl c (by simp)
    have : acquireLoop isOpen openOk postOpen (c :: cs) avail =
        acquireLoop isOpen openOk postOpen cs (c :: avail) := by
      simp [acquireLoop, hc]
    rw [this, ih (c :: avail) (fun x hx => hcl x (by simp [hx]))]
    congr 1
    simp

/-- C5: on the slow path (all cached entries closed, so the loop drains
them and pops the top of the available stack), a failed `open()` pushes
the popped name back onto available[d], executes no post-open statement,
and database() returns the sentinel invalid handle without raising. -/
theorem C5_open_failure (env : Env) (s : PoolState) (d : Int) (n : List Char)
    (rest : List (List Char))
    (hav : env.sqlAvailable = true)
    (hd : 0 ≤ d ∧ d < (env.settingsCount : Int))
    (hclosed : ∀ c ∈ s.cached d.toNat, s.openNames c = false)
    (hstack : (s.cached d.toNat).reverse ++ s.available d.toNat = n :: rest)
    (hopen : s.openNames n = false)
    (hfail : env.openOk n = false) :
    (database env s d).2 = .handle invalidHandle [] ∧
    (database env s d).1.available d.toNat = n :: rest ∧
    (database env s d).1.cached d.toNat = [] := by
  have hloop : acquireLoop s.openNames env.openOk env.postOpen
      (s.cached d.toNat) (s.available d.toNat) =
      ⟨[], n :: rest, some (invalidHandle, [], false)⟩ := by
    rw [acquireLoop_drain _ _ _ _ _ hclosed, hstack]
    simp [acquireLoop, hopen, hfail]
  unfold database
  rw [hav]
  rw [if_neg (by simp), if_pos hd]
  refine ⟨?_, ?_, ?_⟩ <;> simp [hloop, updFn]

/-- C5 witness: one database, one closed available slot whose open fails. -/
theorem C5_open_failure_witness :
    (Env.mk true 1 (fun _ => false) (fun _ => [])).sqlAvailable = true ∧
    ((0 : Int) ≤ 0 ∧ (0 : Int) < ((Env.mk true 1 (fun _ => false) (fun _ => [])).settingsCount : Int)) ∧
    ((database (Env.mk true 1 (fun _ => false) (fun _ => []))
       (PoolState.mk (fun _ => ["rdb00_0".toList]) (fun _ => []) (fun _ => 0) (fun _ => false)) 0).2 =
       .handle invalidHandle [] ∧
     (database (Env.mk true 1 (fun _ => false) (fun _ => []))
       (PoolState.mk (fun _ => ["rdb00_0".toList]) (fun _ => []) (fun _ => 0) (fun _ => false)) 0).1.available 0 =
       "rdb00_0".toList :: [] ∧
     (database (Env.mk true 1 (fun _ => false) (fun _ => []))
       (PoolState.mk (fun _ => ["rdb00_0".toList]) (fun _ => []) (fun _ => 0) (fun _ => false)) 0).1.cached 0 = []) :=
  ⟨rfl, by decide,
    C5_open_failure _ _ 0 ("rdb00_0".toList) [] rfl (by decide)
      (by intro c hc; simp at hc) rfl rfl rfl⟩

/-! ## Release -/

/-- C9: pool() always overwrites the caller's handle with the
default-constructed invalid handle, and on an invalid handle or a
connection name that fails to parse to an in-range index it leaves the
whole pool state (both stacks, all timestamps, all open flags)
unchanged. -/
theorem C9_release_invalidates (env : Env) (now : Nat) (s : PoolState)
    (db : DbHandle) (forceClose : Bool) :
    (pool env now s db forceClose).2 = invalidHandle ∧
    (db.valid = false → pool env now s db forceClose = (s, invalidHandle)) ∧
    (db.valid = true →
      ¬ (0 ≤ getDatabaseId db.name ∧ getDatabaseId db.name < (env.settingsCount : Int)) →
      pool env now s db forceClose = (s, invalidHandle)) := by
  refine ⟨rfl, ?_, ?_⟩
  · intro h
    unfold pool
    rw [h]
    rfl
  · intro hv hrange
    unfold pool
    rw [hv]
    simp only [if_true]
    rw [if_neg hrange]

/-- C9 witness: releasing an invalid handle leaves the state unchanged
and hands back the invalid handle. -/
theorem C9_release_invalidates_witness :
    invalidHandle.valid = false ∧
    pool (Env.mk true 1 (fun _ => false) (fun _ => [])) 100
      (PoolState.mk (fun _ => []) (fun _ => []) (fun _ => 0) (fun _ => false))
      invalidHandle false =
    (PoolState.mk (fun _ => []) (fun _ => []) (fun _ => 0) (fun _ => false),
      invalidHandle) :=
  ⟨rfl, (C9_release_invalidates _ 100 _ invalidHandle false).2.1 rfl⟩

/-! ## Post-open statements -/

/-- The setup applier stores on the slot exactly the source's parse of
PostOpenStatements: the value trimmed as a whole, split on ';' with
empty fragments dropped and the fragments NOT individually trimmed. -/
theorem applyHostName_postOpen (st : DbSettings) (db : SlotConfig) :
    (applyHostName st db).postOpenStatements = db.postOpenStatements := by
  unfold applyHostName
  dsimp only
  split <;> rfl

theorem applyPort_postOpen (st : DbSettings) (db : SlotConfig) :
    (applyPort st db).postOpenStatements = db.postOpenStatements := by
  unfold applyPort
  split <;> rfl

theorem applyUserName_postOpen (st : DbSettings) (db : SlotConfig) :
    (applyUserName st db).postOpenStatements = db.postOpenStatements := by
  unfold applyUserName
  dsimp only
  split <;> rfl

theorem applyPassword_postOpen (st : DbSettings) (db : SlotConfig) :
    (applyPassword st db).postOpenStatements = db.postOpenStatements := by
  unfold applyPassword
  dsimp only
  split <;> rfl

theorem applyConnectOptions_postOpen (st : DbSettings) (db : SlotConfig) :
    (applyConnectOptions st db).postOpenStatements = db.postOpenStatements := by
  unfold applyConnectOptions
  dsimp only
  split <;> rfl

theorem applyPostOpen_eq (st : DbSettings) (db : SlotConfig)
    (h0 : db.postOpenStatements = []) :
    (applyPostOpen st db).postOpenStatements = parsePostOpen st.postOpenStatements := by
  unfold applyPostOpen
  dsimp only
  split
  · rfl
  · next h =>
    rw [Bool.not_eq_true', Bool.not_eq_false, List.isEmpty_iff] at h
    rw [h0, h]

theorem setDatabaseSettings_postOpen (webRootPath : List Char) (isSQLite : Bool)
    (st : DbSettings) (db : SlotConfig)
    (h0 : db.postOpenStatements = [])
    (hname : (trim st.databaseName).isEmpty = false) :
    (setDatabaseSettings webRootPath isSQLite st db).2.postOpenStatements =
      parsePostOpen st.postOpenStatements := by
  unfold setDatabaseSettings
  simp only [hname, Bool.false_eq_true, if_false]
  show (applyUpsertAndExtension st _).postOpenStatements = _
  rw [show ∀ x, (applyUpsertAndExtension st x).postOpenStatements =
        x.postOpenStatements from fun _ => rfl]
  rw [applyPostOpen_eq]
  rw [applyConnectOptions_postOpen, applyPassword_postOpen, applyUserName_postOpen,
    applyPort_postOpen, applyHostName_postOpen]
  exact h0

/-- C6 counterexample: on the PostOpenStatements value " ;a" the slot
stores ["a"] (the source first trims the whole string, so the fragment
" " disappears), while the claim's parse (split, drop empty fragments,
trim each fragment) yields ["", "a"] — a different list, which would
also execute a different sequence of statements. -/
theorem C6_counterexample :
    (setDatabaseSettings [] false
        (DbSettings.mk ("sqlite".toList) ("db".toList) [] 0 [] [] [] (" ;a".toList) false)
        freshSlot).2.postOpenStatements = [['a']] ∧
    specParsePostOpen (" ;a".toList) = [[], ['a']] ∧
    ¬ [['a']] = ([[], ['a']] : List (List Char)) := by decide

/-- C6 amended: the setup applier parses PostOpenStatements by trimming
the whole string, splitting on ';' and dropping empty fragments (without
trimming the individual fragments), and stores that ordered list on the
slot; on each successful slow-path open, exactly the stored statements,
each trimmed, are executed in that order. -/
theorem C6_post_open_statements (webRootPath : List Char) (isSQLite : Bool)
    (st : DbSettings) (db : SlotConfig)
    (h0 : db.postOpenStatements = [])
    (hname : (trim st.databaseName).isEmpty = false)
    (env : Env) (s : PoolState) (d : Int) (n : List Char) (rest : List (List Char))
    (hav : env.sqlAvailable = true)
    (hd : 0 ≤ d ∧ d < (env.settingsCount : Int))
    (hclosed : ∀ c ∈ s.cached d.toNat, s.openNames c = false)
    (hstack : (s.cached d.toNat).reverse ++ s.available d.toNat = n :: rest)
    (hopen : s.openNames n = false)
    (hok : env.openOk n = true) :
    (setDatabaseSettings webRootPath isSQLite st db).2.postOpenStatements =
      parsePostOpen st.postOpenStatements ∧
    (database env s d).2 = .handle ⟨true, n⟩ ((env.postOpen n).map trim) := by
  refine ⟨setDatabaseSettings_postOpen webRootPath isSQLite st db h0 hname, ?_⟩
  have hloop : acquireLoop s.openNames env.openOk env.postOpen
      (s.cached d.toNat) (s.available d.toNat) =
      ⟨[], rest, some (⟨true, n⟩, (env.postOpen n).map trim, true)⟩ := by
    rw [acquireLoop_drain _ _ _ _ _ hclosed, hstack]
    simp [acquireLoop, hopen, hok]
  unfold database
  rw [hav]
  rw [if_neg (by simp), if_pos hd]
  simp [hloop]

/-- C6 witness: one closed available slot with stored statements
[" x ", "y"]; a successful open executes ["x", "y"] in order. -/
theorem C6_post_open_statements_witness :
    (freshSlot.postOpenStatements = []) ∧
    ((trim ("db".toList)).isEmpty = false) ∧
    ((setDatabaseSettings [] false
        (DbSettings.mk ("sqlite".toList) ("db".toList) [] 0 [] [] [] ("p1; p2".toList) false)
        freshSlot).2.postOpenStatements = parsePostOpen ("p1; p2".toList) ∧
     (database
        (Env.mk true 1 (fun _ => true) (fun _ => [" x ".toList, "y".toList]))
        (PoolState.mk (fun _ => ["rdb00_0".toList]) (fun _ => []) (fun _ => 0) (fun _ => false))
        0).2 =
       .handle ⟨true, "rdb00_0".toList⟩
         (((fun _ => [" x ".toList, "y".toList]) ("rdb00_0".toList)).map trim)) :=
  ⟨rfl, by decide,
    C6_post_open_statements [] false
      (DbSettings.mk ("sqlite".toList) ("db".toList) [] 0 [] [] [] ("p1; p2".toList) false)
      freshSlot rfl (by decide)
      (Env.mk true 1 (fun _ => true) (fun _ => [" x ".toList, "y".toList]))
      (PoolState.mk (fun _ => ["rdb00_0".toList]) (fun _ => []) (fun _ => 0) (fun _ => false))
      0 ("rdb00_0".toList) [] rfl (by decide)
      (by intro c hc; simp at hc) rfl rfl rfl⟩

/-! ## Init -/

theorem mem_regIndices (f : Nat → Bool) :
    ∀ (m a i : Nat), a ≤ i → i < a + m → (∀ t, a ≤ t → t ≤ i → f t = true) →
      i ∈ regIndices f a m := by
  intro m
  induction m with
  | zero => intro a i h1 h2 _; omega
  | succ m ih =>
    intro a i h1 h2 hf
    have hfa : f a = true := hf a le_rfl h1
    simp only [regIndices, hfa, if_pos]
    by_cases hia : i = a
    · simp [hia]
    · refine List.mem_cons_of_mem _ ?_
      exact ih (a + 1) i (by omega) (by omega) (fun t ht1 ht2 => hf t (by omega) ht2)

theorem regIndices_eq (f : Nat → Bool) :
    ∀ (m a k : Nat), k ≤ m → (∀ t, t < k → f (a + t) = true) →
      (k < m → f (a + k) = false) →
      regIndices f a m = (List.range k).map (fun t => a + t) := by
  intro m
  induction m with
  | zero =>
    intro a k hk _ _
    interval_cases k
    rfl
  | succ m ih =>
    intro a k hk hval hstop
    cases k with
    | zero =>
      have hfa : f a = false := by simpa using hstop (by omega)
      simp [regIndices, hfa]
    | succ k =>
      have hfa : f a = true := by simpa using hval 0 (by omega)
      simp only [regIndices, hfa, if_pos]
      rw [ih (a + 1) k (by omega)
          (fun t ht => by
            have h := hval (t + 1) (by omega)
            have : a + 1 + t = a + (t + 1) := by omega
            rw [this]
            exact h)
          (fun hkm => by
            have h := hstop (by omega)
            have : a + 1 + k = a + (k + 1) := by omega
            rw [this]
            exact h)]
      rw [List.range_succ_eq_map]
      rw [List.map_cons, List.map_map]
      simp only [Nat.add_zero]
      congr 1
      exact List.map_congr_left (fun x _ => by simp [Function.comp]; omega)

theorem connName_inj_right {j i1 i2 : Nat} (h : connName j i1 = connName j i2) :
    i1 = i2 := by
  unfold connName at h
  simp only [List.cons.injEq, true_and] at h
  have h2 := List.append_cancel_left h
  simp only [List.cons.injEq, true_and] at h2
  exact natDecimal_injective h2

/-- C2 counterexample: with DriverType "sqlite" and a DatabaseName that is
empty after trimming, setDatabaseSettings returns failure, yet init still
pushes the slot's name onto available[0] (the source ignores the return
value at line 106), so the slot is not skipped as the claim states. -/
theorem C2_counterexample :
    (setDatabaseSettings [] false
        (DbSettings.mk ("sqlite".toList) ("  ".toList) [] 0 [] [] [] [] false)
        freshSlot).1 = false ∧
    connName 0 0 ∈ initAvailable
      (InitEnv.mk true
        [DbSettings.mk ("sqlite".toList) ("  ".toList) [] 0 [] [] [] [] false]
        1 (fun _ _ => true)) 0 := by decide

/-- C2 amended: setDatabaseSettings returns failure exactly when the
database's DatabaseName is empty after trimming; init however ignores
that result, so the slot is NOT skipped: its name is pushed onto
available[d] whenever the driver handle is valid. -/
theorem C2_empty_database_name (webRootPath : List Char) (isSQLite : Bool)
    (st : DbSettings) (db : SlotConfig) (env : InitEnv) (j i : Nat)
    (hav : env.sqlAvailable = true)
    (hdrv : (driverTypeOf env j).isEmpty = false)
    (hvalid : ∀ t, t ≤ i → env.addValid j t = true)
    (hi : i < env.maxConnects) :
    ((setDatabaseSettings webRootPath isSQLite st db).1 = false ↔
      (trim st.databaseName).isEmpty = true) ∧
    connName j i ∈ initAvailable env j := by
  constructor
  · by_cases h : (trim st.databaseName).isEmpty <;> simp [setDatabaseSettings, h]
  · unfold initAvailable
    rw [hav]
    rw [if_neg (by simp), if_neg (by simp [hdrv])]
    rw [List.mem_reverse]
    refine List.mem_map.2 ⟨i, ?_, rfl⟩
    exact mem_regIndices _ _ 0 i (by omega) (by omega)
      (fun t _ ht2 => hvalid t ht2)

/-- C2 witness: DatabaseName "  " trims to empty, the applier fails, and
the slot name rdb00_0 is still pushed. -/
theorem C2_empty_database_name_witness :
    (InitEnv.mk true
        [DbSettings.mk ("sqlite".toList) ("  ".toList) [] 0 [] [] [] [] false]
        1 (fun _ _ => true)).sqlAvailable = true ∧
    (((setDatabaseSettings [] false
        (DbSettings.mk ("sqlite".toList) ("  ".toList) [] 0 [] [] [] [] false)
        freshSlot).1 = false ↔
      (trim ("  ".toList)).isEmpty = true) ∧
     connName 0 0 ∈ initAvailable
      (InitEnv.mk true
        [DbSettings.mk ("sqlite".toList) ("  ".toList) [] 0 [] [] [] [] false]
        1 (fun _ _ => true)) 0) :=
  ⟨rfl, C2_empty_database_name [] false
    (DbSettings.mk ("sqlite".toList) ("  ".toList) [] 0 [] [] [] [] false)
    freshSlot _ 0 0 rfl (by decide) (fun t _ => rfl) (by decide)⟩

/-- C10: for a database d with non-empty DriverType, init registers slots
in increasing index order and stops at the first index k rejected by the
driver registry: available[d] ends up holding exactly the names of slots
0..k-1 (k ≤ M, possibly fewer than M), no name of a slot ≥ k is ever
pushed, and the reaper timer is still started because d counts as
enabled. -/
theorem C10_init_stops_at_first_invalid (env : InitEnv) (d k : Nat)
    (hav : env.sqlAvailable = true)
    (hdrv : (driverTypeOf env d).isEmpty = false)
    (hdN : d < env.settings.length)
    (hk : k ≤ env.maxConnects)
    (hvalid : ∀ t, t < k → env.addValid d t = true)
    (hstop : k < env.maxConnects → env.addValid d k = false) :
    initAvailable env d = ((List.range k).map (connName d)).reverse ∧
    (initAvailable env d).length = k ∧
    (∀ i, k ≤ i → connName d i ∉ initAvailable env d) ∧
    initTimerStarted env = true := by
  have hreg : regIndices (env.addValid d) 0 env.maxConnects = List.range k := by
    rw [regIndices_eq (env.addValid d) env.maxConnects 0 k hk
      (fun t ht => by simpa using hvalid t ht) (fun h => by simpa using hstop h)]
    simp
  have hmain : initAvailable env d = ((List.range k).map (connName d)).reverse := by
    unfold initAvailable
    rw [hav]
    rw [if_neg (by simp), if_neg (by simp [hdrv]), hreg]
  refine ⟨hmain, ?_, ?_, ?_⟩
  · rw [hmain]; simp
  · intro i hi hmem
    rw [hmain, List.mem_reverse] at hmem
    rcases List.mem_map.1 hmem with ⟨t, ht, hteq⟩
    rw [List.mem_range] at ht
    have := connName_inj_right hteq
    omega
  · unfold initTimerStarted
    rw [hav]
    simp only [Bool.true_and, List.any_eq_true]
    exact ⟨d, List.mem_range.2 hdN, by simp [hdrv]⟩

/-- C10 witness: M = 3, the registry rejects slot 1, so available[0]
holds only rdb00_0 and the timer is started. -/
theorem C10_init_stops_at_first_invalid_witness :
    (InitEnv.mk true
        [DbSettings.mk ("sqlite".toList) ("db".toList) [] 0 [] [] [] [] false]
        3 (fun _ i => decide (i = 0))).sqlAvailable = true ∧
    (initAvailable
        (InitEnv.mk true
          [DbSettings.mk ("sqlite".toList) ("db".toList) [] 0 [] [] [] [] false]
          3 (fun _ i => decide (i = 0))) 0 =
        ((List.range 1).map (connName 0)).reverse ∧
     (initAvailable
        (InitEnv.mk true
          [DbSettings.mk ("sqlite".toList) ("db".toList) [] 0 [] [] [] [] false]
          3 (fun _ i => decide (i = 0))) 0).length = 1 ∧
     (∀ i, 1 ≤ i → connName 0 i ∉ initAvailable
        (InitEnv.mk true
          [DbSettings.mk ("sqlite".toList) ("db".toList) [] 0 [] [] [] [] false]
          3 (fun _ i => decide (i = 0))) 0) ∧
     initTimerStarted
        (InitEnv.mk true
          [DbSettings.mk ("sqlite".toList) ("db".toList) [] 0 [] [] [] [] false]
          3 (fun _ i => decide (i = 0))) = true) :=
  ⟨rfl, C10_init_stops_at_first_invalid _ 0 1 rfl (by decide) (by decide) (by decide)
    (fun t ht => by interval_cases t; rfl) (fun _ => by decide)⟩

/-! ## Reaper -/

theorem tickThreshold_eq {now : Nat} (h30 : 30 ≤ now) (hlt : now < 2 ^ 32) :
    tickThreshold now = now - 30 := by
  unfold tickThreshold
  rw [Nat.mod_eq_of_lt hlt]
  have h1 : now + 2 ^ 32 - 30 = 2 ^ 32 + (now - 30) := by omega
  rw [h1, Nat.add_mod_left]
  exact Nat.mod_eq_of_lt (by omega)

theorem closeDatabase_at (s : PoolState) (db : DbHandle) (j : Nat)
    (hn : getDatabaseId db.name = (j : Int)) :
    (closeDatabase s db).available j = db.name :: s.available j ∧
    (∀ k, k ≠ j → (closeDatabase s db).available k = s.available k) ∧
    (closeDatabase s db).cached = s.cached ∧
    (closeDatabase s db).lastCachedTime = s.lastCachedTime ∧
    (∀ m, (closeDatabase s db).openNames m =
      if m = db.name then false else s.openNames m) := by
  unfold closeDatabase
  have hid : (getDatabaseId db.name).toNat = j := by rw [hn]; simp
  refine ⟨?_, ?_, rfl, rfl, fun m => rfl⟩
  · simp [hid, updFn]
  · intro k hk
    simp [hid, updFn, hk]

theorem closeList_at (j : Nat) :
    ∀ (names : List (List Char)) (s : PoolState),
      (∀ n ∈ names, getDatabaseId n = (j : Int)) →
      (closeList s names).available j = names.reverse ++ s.available j ∧
      (∀ k, k ≠ j → (closeList s names).available k = s.available k) ∧
      (closeList s names).cached = s.cached ∧
      (closeList s names).lastCachedTime = s.lastCachedTime ∧
      (∀ m, (closeList s names).openNames m =
        if m ∈ names then false else s.openNames m) := by
  intro names
  induction names with
  | nil =>
    intro s _
    exact ⟨by simp [closeList], fun k _ => rfl, rfl, rfl, fun m => by simp [closeList]⟩
  | cons n ns ih =>
    intro s hp
    have hn : getDatabaseId n = (j : Int) := hp n (by simp)
    have hclose := closeDatabase_at s ⟨true, n⟩ j hn
    have hrec := ih (closeDatabase s ⟨true, n⟩) (fun m hm => hp m (by simp [hm]))
    refine ⟨?_, ?_, ?_, ?_, ?_⟩
    · show (closeList (closeDatabase s ⟨true, n⟩) ns).available j = _
      rw [hrec.1, hclose.1]
      simp
    · intro k hk
      show (closeList (closeDatabase s ⟨true, n⟩) ns).available k = _
      rw [hrec.2.1 k hk, hclose.2.1 k hk]
    · show (closeList (closeDatabase s ⟨true, n⟩) ns).cached = _
      rw [hrec.2.2.1, hclose.2.2.1]
    · show (closeList (closeDatabase s ⟨true, n⟩) ns).lastCachedTime = _
      rw [hrec.2.2.2.1, hclose.2.2.2.1]
    · intro m
      show (closeList (closeDatabase s ⟨true, n⟩) ns).openNames m = _
      rw [hrec.2.2.2.2 m, hclose.2.2.2.2 m]
      by_cases hmns : m ∈ ns
      · simp [hmns]
      · by_cases hmn : m = n <;> simp [hmns, hmn]

theorem closeList_open_mono :
    ∀ (names : List (List Char)) (s : PoolState) (n : List Char),
      s.openNames n = false → (closeList s names).openNames n = false := by
  intro names
  induction names with
  | nil => intro s n h; exact h
  | cons m ms ih =>
    intro s n h
    refine ih _ n ?_
    show (setOpen s.openNames m false) n = false
    unfold setOpen
    by_cases hnm : n = m <;> simp [hnm, h]

theorem timerEventOne_open_mono (now : Nat) (s : PoolState) (i : Nat)
    (n : List Char) (h : s.openNames n = false) :
    (timerEventOne now s i).openNames n = false := by
  unfold timerEventOne
  split
  · exact h
  · split
    · exact closeList_open_mono _ _ n h
    · exact h

theorem timerEventOne_at (now : Nat) (s : PoolState) (i : Nat)
    (hparse : ∀ n ∈ s.cached i, getDatabaseId n = (i : Int)) :
    ((s.cached i = [] ∨ ¬ s.lastCachedTime i < tickThreshold now) →
      timerEventOne now s i = s) ∧
    (s.cached i ≠ [] → s.lastCachedTime i < tickThreshold now →
      (timerEventOne now s i).cached = updFn s.cached i [] ∧
      (timerEventOne now s i).available i = (s.cached i).reverse ++ s.available i ∧
      (∀ k, k ≠ i → (timerEventOne now s i).available k = s.available k) ∧
      (timerEventOne now s i).lastCachedTime = s.lastCachedTime ∧
      (∀ m, (timerEventOne now s i).openNames m =
        if m ∈ s.cached i then false else s.openNames m)) := by
  constructor
  · intro hskip
    unfold timerEventOne
    rcases hskip with hemp | hfresh
    · rw [if_pos (by simp [hemp])]
    · by_cases hemp : (s.cached i).length = 0
      · rw [if_pos hemp]
      · rw [if_neg hemp, if_neg hfresh]
  · intro hne hstale
    unfold timerEventOne
    rw [if_neg (by simpa [List.length_eq_zero] using hne), if_pos hstale]
    have hcl := closeList_at i (s.cached i)
      { s with cached := updFn s.cached i [] } hparse
    refine ⟨hcl.2.2.1, by rw [hcl.1], fun k hk => by rw [hcl.2.1 k hk],
      hcl.2.2.2.1, hcl.2.2.2.2⟩

theorem foldl_timer_open_mono (now : Nat) :
    ∀ (L : List Nat) (s : PoolState) (n : List Char),
      s.openNames n = false →
      (L.foldl (timerEventOne now) s).openNames n = false := by
  intro L
  induction L with
  | nil => intro s n h; exact h
  | cons j L ih =>
    intro s n h
    exact ih (timerEventOne now s j) n (timerEventOne_open_mono now s j n h)

theorem foldl_timer_at (now : Nat) :
    ∀ (L : List Nat) (s : PoolState), L.Nodup →
      (∀ j ∈ L, ∀ n ∈ s.cached j, getDatabaseId n = (j : Int)) →
      ∀ d,
        (d ∉ L →
          (L.foldl (timerEventOne now) s).cached d = s.cached d ∧
          (L.foldl (timerEventOne now) s).available d = s.available d) ∧
        (d ∈ L →
          (L.foldl (timerEventOne now) s).cached d = (timerEventOne now s d).cached d ∧
          (L.foldl (timerEventOne now) s).available d = (timerEventOne now s d).available d) ∧
        (L.foldl (timerEventOne now) s).lastCachedTime d = s.lastCachedTime d ∧
        (∀ n ∈ s.cached d, d ∈ L → s.cached d ≠ [] →
          s.lastCachedTime d < tickThreshold now →
          (L.foldl (timerEventOne now) s).openNames n = false) := by
  intro L
  induction L with
  | nil =>
    intro s _ _ d
    exact ⟨fun _ => ⟨rfl, rfl⟩, fun h => absurd h (by simp), rfl,
      fun n _ h => absurd h (by simp)⟩
  | cons j L ih =>
    intro s hnd hp d
    have hndL : L.Nodup := (List.nodup_cons.1 hnd).2
    have hjL : j ∉ L := (List.nodup_cons.1 hnd).1
    have hpj : ∀ n ∈ s.cached j, getDatabaseId n = (j : Int) := hp j (by simp)
    have hone := timerEventOne_at now s j hpj
    -- Projections of the first step.
    have hs1c : ∀ k, k ≠ j → (timerEventOne now s j).cached k = s.cached k := by
      intro k hk
      by_cases hskip : s.cached j = [] ∨ ¬ s.lastCachedTime j < tickThreshold now
      · rw [hone.1 hskip]
      · push_neg at hskip
        rw [(hone.2 hskip.1 hskip.2).1]
        simp [updFn, hk]
    have hs1a : ∀ k, k ≠ j → (timerEventOne now s j).available k = s.available k := by
      intro k hk
      by_cases hskip : s.cached j = [] ∨ ¬ s.lastCachedTime j < tickThreshold now
      · rw [hone.1 hskip]
      · push_neg at hskip
        exact (hone.2 hskip.1 hskip.2).2.2.1 k hk
    have hs1t : (timerEventOne now s j).lastCachedTime = s.lastCachedTime := by
      by_cases hskip : s.cached j = [] ∨ ¬ s.lastCachedTime j < tickThreshold now
      · rw [hone.1 hskip]
      · push_neg at hskip
        exact (hone.2 hskip.1 hskip.2).2.2.2.1
    have hpL : ∀ k ∈ L, ∀ n ∈ (timerEventOne now s j).cached k,
        getDatabaseId n = (k : Int) := by
      intro k hk n hn
      have hkj : k ≠ j := fun hkeq => hjL (hkeq ▸ hk)
      rw [hs1c k hkj] at hn
      exact hp k (by simp [hk]) n hn
    have hrec := ih (timerEventOne now s j) hndL hpL d
    have hfold : (j :: L).foldl (timerEventOne now) s =
        L.foldl (timerEventOne now) (timerEventOne now s j) := rfl
    refine ⟨?_, ?_, ?_, ?_⟩
    · intro hd
      have hdj : d ≠ j := fun h => hd (by simp [h])
      have hdL : d ∉ L := fun h => hd (by simp [h])
      rw [hfold, (hrec.1 hdL).1, (hrec.1 hdL).2, hs1c d hdj, hs1a d hdj]
      exact ⟨rfl, rfl⟩
    · intro hd
      by_cases hdj : d = j
      · subst hdj
        rw [hfold, (hrec.1 hjL).1, (hrec.1 hjL).2]
        exact ⟨rfl, rfl⟩
      · have hdL : d ∈ L := by
          rcases List.mem_cons.1 hd with h | h
          · exact absurd h hdj
          · exact h
        rw [hfold, (hrec.2.1 hdL).1, (hrec.2.1 hdL).2]
        -- The step at d sees the same cached/available/lastCachedTime at d.
        have hc : (timerEventOne now s j).cached d = s.cached d := hs1c d hdj
        have ha : (timerEventOne now s j).available d = s.available d := hs1a d hdj
        have ht : (timerEventOne now s j).lastCachedTime d = s.lastCachedTime d := by
          rw [hs1t]
        have hpd : ∀ n ∈ s.cached d, getDatabaseId n = (d : Int) :=
          hp d (by simp [hdL])
        have honeD := timerEventOne_at now s d hpd
        have honeD1 := timerEventOne_at now (timerEventOne now s j) d
          (by rw [hc]; exact hpd)
        by_cases hskip : s.cached d = [] ∨ ¬ s.lastCachedTime d < tickThreshold now
        · rw [honeD.1 hskip, honeD1.1 (by rw [hc, ht]; exact hskip), hc, ha]
          exact ⟨rfl, rfl⟩
        · push_neg at hskip
          have hA := honeD.2 hskip.1 hskip.2
          have hB := honeD1.2 (by rw [hc]; exact hskip.1) (by rw [ht]; exact hskip.2)
          constructor
          · rw [hA.1, hB.1]
            simp [updFn]
          · rw [hA.2.1, hB.2.1, hc, ha]
    · rw [hfold, hrec.2.2.1, hs1t]
    · intro n hn hd hne hstale
      by_cases hdj : d = j
      · subst hdj
        have hfalse : (timerEventOne now s d).openNames n = false := by
          rw [(hone.2 hne hstale).2.2.2.2 n, if_pos hn]
        rw [hfold]
        exact foldl_timer_open_mono now L (timerEventOne now s d) n hfalse
      · have hdL : d ∈ L := by
          rcases List.mem_cons.1 hd with h | h
          · exact absurd h hdj
          · exact h
        rw [hfold]
        refine hrec.2.2.2 n ?_ hdL ?_ ?_
        · rw [hs1c d hdj]; exact hn
        · rw [hs1c d hdj]; exact hne
        · rw [hs1t]; exact hstale

/-- C7: at a reaper tick over databases 0..N-1 whose cached names parse
back to their index (which pool() guarantees, since it only caches names
it range-checked), for each d: if cached[d] is non-empty and
lastCachedTime[d] is older than now - 30 seconds, the tick pops every
name from cached[d] (closing each handle, whose open flag becomes false)
and pushes each onto available[d], leaving cached[d] empty; if cached[d]
is already empty the tick skips d, changing neither stack of d. -/
theorem C7_reaper_tick (N now : Nat) (s : PoolState) (d : Nat)
    (hparse : ∀ j, j < N → ∀ n ∈ s.cached j, getDatabaseId n = (j : Int))
    (hd : d < N) (h30 : 30 ≤ now) (hlt : now < 2 ^ 32) :
    (s.cached d ≠ [] → s.lastCachedTime d < now - 30 →
      (timerEvent N now s).cached d = [] ∧
      (timerEvent N now s).available d = (s.cached d).reverse ++ s.available d ∧
      ∀ n ∈ s.cached d, (timerEvent N now s).openNames n = false) ∧
    (s.cached d = [] →
      (timerEvent N now s).cached d = s.cached d ∧
      (timerEvent N now s).available d = s.available d) := by
  have hth := tickThreshold_eq h30 hlt
  have hfold := foldl_timer_at now (List.range N) s (List.nodup_range N)
    (fun j hj => hparse j (List.mem_range.1 hj)) d
  have hdmem : d ∈ List.range N := List.mem_range.2 hd
  have hpd : ∀ n ∈ s.cached d, getDatabaseId n = (d : Int) := hparse d hd
  have hone := timerEventOne_at now s d hpd
  have hTE : timerEvent N now s = (List.range N).foldl (timerEventOne now) s := rfl
  constructor
  · intro hne hstale
    have hstale2 : s.lastCachedTime d < tickThreshold now := by rw [hth]; omega
    have hA := hone.2 hne hstale2
    refine ⟨?_, ?_, ?_⟩
    · rw [hTE, (hfold.2.1 hdmem).1, hA.1]
      simp [updFn]
    · rw [hTE, (hfold.2.1 hdmem).2, hA.2.1]
    · intro n hn
      rw [hTE]
      exact hfold.2.2.2 n hn hdmem hne hstale2
  · intro hemp
    have hskip := hone.1 (Or.inl hemp)
    rw [hTE, (hfold.2.1 hdmem).1, (hfold.2.1 hdmem).2, hskip]
    exact ⟨rfl, rfl⟩

/-- C7 witness: one database, one cached name rdb00_0, last return at
second 10, tick at second 100: the cache drains onto available and the
handle is closed. -/
theorem C7_reaper_tick_witness :
    (∀ j, j < 1 →
      ∀ n ∈ (PoolState.mk (fun _ => []) (fun _ => ["rdb00_0".toList])
        (fun _ => 10) (fun _ => true)).cached j, getDatabaseId n = (j : Int)) ∧
    ((PoolState.mk (fun _ => []) (fun _ => ["rdb00_0".toList])
        (fun _ => 10) (fun _ => true)).cached 0 ≠ [] ∧
     (PoolState.mk (fun _ => []) (fun _ => ["rdb00_0".toList])
        (fun _ => 10) (fun _ => true)).lastCachedTime 0 < 100 - 30) ∧
    ((timerEvent 1 100 (PoolState.mk (fun _ => []) (fun _ => ["rdb00_0".toList])
        (fun _ => 10) (fun _ => true))).cached 0 = [] ∧
     (timerEvent 1 100 (PoolState.mk (fun _ => []) (fun _ => ["rdb00_0".toList])
        (fun _ => 10) (fun _ => true))).available 0 =
       (["rdb00_0".toList] : List (List Char)).reverse ++ [] ∧
     ∀ n ∈ (["rdb00_0".toList] : List (List Char)),
       (timerEvent 1 100 (PoolState.mk (fun _ => []) (fun _ => ["rdb00_0".toList])
        (fun _ => 10) (fun _ => true))).openNames n = false) :=
  ⟨by decide, ⟨by decide, by decide⟩,
    (C7_reaper_tick 1 100
      (PoolState.mk (fun _ => []) (fun _ => ["rdb00_0".toList])
        (fun _ => 10) (fun _ => true)) 0
      (by decide) (by decide) (by decide) (by decide)).1
      (by decide) (by decide)⟩

/-! ## Name conservation -/

theorem cons_append_append_perm {α : Type} (x : α) (l1 l2 l3 : List α) :
    ((x :: l1) ++ (l2 ++ l3)).Perm (l1 ++ (l2 ++ (x :: l3))) := by
  have h := (@List.perm_middle _ x (l1 ++ l2) l3).symm
  simpa [List.append_assoc] using h

theorem append_cons_middle_perm {α : Type} (x : α) (l1 l2 l3 : List α) :
    (l1 ++ ((x :: l2) ++ l3)).Perm (l1 ++ (l2 ++ (x :: l3))) := by
  refine List.Perm.append_left l1 ?_
  exact (@List.perm_middle _ x l2 l3).symm

/-- The loop preserves the multiset of names: the names in its output
stacks together with the name it hands to the worker are a permutation
of the input stacks. -/
theorem acquireLoop_perm (isOpen openOk : List Char → Bool)
    (postOpen : List Char → List (List Char)) :
    ∀ (cached avail : List (List Char)),
      ((acquireLoop isOpen openOk postOpen cached avail).available ++
        ((acquireLoop isOpen openOk postOpen cached avail).cached ++
          acquiredOutcome (acquireLoop isOpen openOk postOpen cached avail))).Perm
        (avail ++ cached) := by
  intro cached
  induction cached with
  | nil =>
    intro avail
    cases avail with
    | nil => simp [acquireLoop, acquiredOutcome]
    | cons n rest =>
      by_cases ho : isOpen n = true
      · simp only [acquireLoop, ho, if_pos]
        simp [acquiredOutcome]
      · by_cases hk : openOk n = true
        · simp only [acquireLoop, ho, hk, Bool.false_eq_true, if_false, if_pos]
          simp [acquiredOutcome]
        · simp only [acquireLoop, ho, hk, Bool.false_eq_true, if_false]
          simp [acquiredOutcome, invalidHandle]
  | cons c cs ih =>
    intro avail
    by_cases ho : isOpen c = true
    · simp only [acquireLoop, ho, if_pos]
      simp only [acquiredOutcome]
      refine List.Perm.append_left avail ?_
      simp
    · have hstep : acquireLoop isOpen openOk postOpen (c :: cs) avail =
          acquireLoop isOpen openOk postOpen cs (c :: avail) := by
        simp [acquireLoop, ho]
      rw [hstep]
      refine (ih (c :: avail)).trans ?_
      have : (c :: avail) ++ cs = c :: (avail ++ cs) := rfl
      rw [this]
      exact (@List.perm_middle _ c avail cs).symm

theorem perm_cons_erase_default {a : List Char} {l : List (List Char)}
    (h : a ∈ l) : l.Perm (a :: l.erase a) := by
  induction l with
  | nil => cases h
  | cons b bs ih =>
    by_cases hba : b = a
    · subst hba
      simp [List.erase_cons_head]
    · have hne : (b == a) = false := by simp [hba]
      rw [List.erase_cons, hne]
      simp only [Bool.false_eq_true, if_false]
      have hmem : a ∈ bs := by
        rcases List.mem_cons.1 h with h1 | h1
        · exact absurd h1.symm hba
        · exact h1
      exact ((ih hmem).cons b).trans (List.Perm.swap a b _)

/-- Combining the loop permutation with a pool invariant. -/
theorem registeredInv_step {names sa sc la lc acq inUse : List (List Char)}
    (hperm : (la ++ (lc ++ acq)).Perm (sa ++ sc))
    (hinv : registeredInv names sa sc inUse) :
    registeredInv names la lc (acq ++ inUse) := by
  unfold registeredInv at hinv ⊢
  have h1 : la ++ lc ++ (acq ++ inUse) = la ++ (lc ++ acq) ++ inUse := by
    simp [List.append_assoc]
  rw [h1]
  exact (hperm.append_right inUse).trans hinv

/-- C1: name conservation and no-duplication.  With `names` the slot
names registered for database d (M of them, pairwise distinct) and
`inUse` the ghost multiset of names currently borrowed by workers, every
pool operation preserves the invariant that available[d], cached[d] and
the borrowed names together are a permutation of `names`: an acquire
(database()) moves at most the returned handle's name out of the stacks,
a release (pool()) of a borrowed name moves it back in, and a reaper
tick only moves names from cached[d] to available[d].  At a quiescent
moment (no borrow outstanding, inUse = []) this yields
|available[d]| + |cached[d]| = M with no name in both stacks nor twice
in one. -/
theorem C1_name_conservation (env : Env) (now N M : Nat) (s : PoolState)
    (names inUse : List (List Char)) (d : Nat) (dI : Int) (db : DbHandle)
    (forceClose : Bool)
    (hnodup : names.Nodup) (hM : names.length = M) :
    (dI.toNat = d →
      registeredInv names (s.available d) (s.cached d) inUse →
      registeredInv names ((database env s dI).1.available d)
        ((database env s dI).1.cached d)
        (acquiredOf (database env s dI).2 ++ inUse)) ∧
    (db.valid = true → getDatabaseId db.name = (d : Int) →
      (d : Int) < (env.settingsCount : Int) → db.name ∈ inUse →
      registeredInv names (s.available d) (s.cached d) inUse →
      registeredInv names ((pool env now s db forceClose).1.available d)
        ((pool env now s db forceClose).1.cached d) (inUse.erase db.name)) ∧
    ((∀ j, j < N → ∀ n ∈ s.cached j, getDatabaseId n = (j : Int)) →
      registeredInv names (s.available d) (s.cached d) inUse →
      registeredInv names ((timerEvent N now s).available d)
        ((timerEvent N now s).cached d) inUse) ∧
    (registeredInv names (s.available d) (s.cached d) [] →
      (s.available d).length + (s.cached d).length = M ∧
      (s.available d).Nodup ∧ (s.cached d).Nodup ∧
      ∀ n ∈ s.available d, n ∉ s.cached d) := by
  refine ⟨?_, ?_, ?_, ?_⟩
  · -- acquire preserves the invariant
    intro hdI hinv
    subst hdI
    unfold database
    by_cases h1 : env.sqlAvailable = false
    · rw [if_pos h1]
      simpa [acquiredOf, invalidHandle, registeredInv] using hinv
    · rw [if_neg h1]
      by_cases h2 : 0 ≤ dI ∧ dI < (env.settingsCount : Int)
      · rw [if_pos h2]
        have hperm := acquireLoop_perm s.openNames env.openOk env.postOpen
          (s.cached dI.toNat) (s.available dI.toNat)
        rcases hr : acquireLoop s.openNames env.openOk env.postOpen
          (s.cached dI.toNat) (s.available dI.toNat) with ⟨lc, la, lo⟩
        rw [hr] at hperm
        simp only [hr]
        cases lo with
        | none =>
          refine registeredInv_step ?_ hinv
          simpa [acquiredOutcome, acquiredOf, updFn] using hperm
        | some out =>
          rcases out with ⟨h, ex, opened⟩
          cases opened with
          | false =>
            refine registeredInv_step ?_ hinv
            simpa [acquiredOutcome, acquiredOf, updFn] using hperm
          | true =>
            refine registeredInv_step ?_ hinv
            simpa [acquiredOutcome, acquiredOf, updFn] using hperm
      · rw [if_neg h2]
        simpa [acquiredOf, registeredInv] using hinv
  · -- release preserves the invariant
    intro hv hid hlt hmem hinv
    have h0 : (0 : Int) ≤ getDatabaseId db.name := by
      rw [hid]; exact Int.natCast_nonneg d
    have hidt : (getDatabaseId db.name).toNat = d := by rw [hid]; simp
    have hcond : 0 ≤ getDatabaseId db.name ∧
        getDatabaseId db.name < (env.settingsCount : Int) :=
      ⟨h0, by rw [hid]; exact hlt⟩
    have h1 : inUse.Perm (db.name :: inUse.erase db.name) :=
      perm_cons_erase_default hmem
    unfold pool
    rw [hv, if_pos rfl, if_pos hcond]
    cases forceClose with
    | true =>
      rw [if_pos rfl]
      have hclose := closeDatabase_at s db d hid
      rw [hclose.1, hclose.2.2.1]
      unfold registeredInv at hinv ⊢
      have e1 : (db.name :: s.available d) ++ s.cached d ++ inUse.erase db.name =
          (db.name :: s.available d) ++ (s.cached d ++ inUse.erase db.name) :=
        List.append_assoc _ _ _
      rw [e1]
      refine (cons_append_append_perm db.name (s.available d) (s.cached d)
        (inUse.erase db.name)).trans ?_
      refine (List.Perm.append_left (s.available d)
        (List.Perm.append_left (s.cached d) h1.symm)).trans ?_
      simpa [List.append_assoc] using hinv
    | false =>
      rw [if_neg (show ¬ (false = true) by simp)]
      dsimp only
      have ec : updFn s.cached (getDatabaseId db.name).toNat
          (db.name :: s.cached (getDatabaseId db.name).toNat) d =
          db.name :: s.cached d := by
        rw [hidt]; simp [updFn]
      rw [ec]
      unfold registeredInv at hinv ⊢
      have e1 : s.available d ++ (db.name :: s.cached d) ++ inUse.erase db.name =
          s.available d ++ ((db.name :: s.cached d) ++ inUse.erase db.name) :=
        List.append_assoc _ _ _
      rw [e1]
      refine (append_cons_middle_perm db.name (s.available d) (s.cached d)
        (inUse.erase db.name)).trans ?_
      refine (List.Perm.append_left (s.available d)
        (List.Perm.append_left (s.cached d) h1.symm)).trans ?_
      simpa [List.append_assoc] using hinv
  · -- a reaper tick preserves the invariant
    intro hparse hinv
    have hTE : timerEvent N now s = (List.range N).foldl (timerEventOne now) s := rfl
    have hfold := foldl_timer_at now (List.range N) s (List.nodup_range N)
      (fun j hj => hparse j (List.mem_range.1 hj)) d
    by_cases hd2 : d < N
    · have hdmem : d ∈ List.range N := List.mem_range.2 hd2
      have hone := timerEventOne_at now s d (hparse d hd2)
      rw [hTE, (hfold.2.1 hdmem).1, (hfold.2.1 hdmem).2]
      by_cases hskip : s.cached d = [] ∨ ¬ s.lastCachedTime d < tickThreshold now
      · rw [hone.1 hskip]
        exact hinv
      · push_neg at hskip
        have hA := hone.2 hskip.1 hskip.2
        have ec : updFn s.cached d ([] : List (List Char)) d = [] := by
          simp [updFn]
        rw [hA.1, hA.2.1, ec]
        unfold registeredInv at hinv ⊢
        rw [List.append_nil]
        refine List.Perm.trans (List.Perm.append_right inUse ?_) hinv
        exact ((s.cached d).reverse_perm.append_right _).trans List.perm_append_comm
    · have hdmem : d ∉ List.range N := by simp [List.mem_range]; omega
      rw [hTE, (hfold.1 hdmem).1, (hfold.1 hdmem).2]
      exact hinv
  · -- quiescent counting and no-duplicates
    intro hinv
    unfold registeredInv at hinv
    rw [List.append_nil] at hinv
    have hnd2 : (s.available d ++ s.cached d).Nodup := hinv.nodup_iff.2 hnodup
    have hlen := hinv.length_eq
    rw [List.length_append, hM] at hlen
    rcases List.nodup_append.1 hnd2 with ⟨hna, hnc, hdisj⟩
    exact ⟨hlen, hna, hnc, fun n hn => hdisj hn⟩

/-- C1 witness: two registered slots for database 0, one available and
one cached, none borrowed: the quiescent count is 2 = M and both stacks
are duplicate-free and disjoint. -/
theorem C1_name_conservation_witness :
    (["rdb00_0".toList, "rdb00_1".toList] : List (List Char)).Nodup ∧
    (["rdb00_0".toList, "rdb00_1".toList] : List (List Char)).length = 2 ∧
    registeredInv ["rdb00_0".toList, "rdb00_1".toList]
      ((PoolState.mk (fun _ => ["rdb00_1".toList]) (fun _ => ["rdb00_0".toList])
        (fun _ => 0) (fun _ => true)).available 0)
      ((PoolState.mk (fun _ => ["rdb00_1".toList]) (fun _ => ["rdb00_0".toList])
        (fun _ => 0) (fun _ => true)).cached 0) [] ∧
    (((PoolState.mk (fun _ => ["rdb00_1".toList]) (fun _ => ["rdb00_0".toList])
        (fun _ => 0) (fun _ => true)).available 0).length +
     ((PoolState.mk (fun _ => ["rdb00_1".toList]) (fun _ => ["rdb00_0".toList])
        (fun _ => 0) (fun _ => true)).cached 0).length = 2 ∧
     ((PoolState.mk (fun _ => ["rdb00_1".toList]) (fun _ => ["rdb00_0".toList])
        (fun _ => 0) (fun _ => true)).available 0).Nodup ∧
     ((PoolState.mk (fun _ => ["rdb00_1".toList]) (fun _ => ["rdb00_0".toList])
        (fun _ => 0) (fun _ => true)).cached 0).Nodup ∧
     ∀ n ∈ (PoolState.mk (fun _ => ["rdb00_1".toList]) (fun _ => ["rdb00_0".toList])
        (fun _ => 0) (fun _ => true)).available 0,
       n ∉ (PoolState.mk (fun _ => ["rdb00_1".toList]) (fun _ => ["rdb00_0".toList])
        (fun _ => 0) (fun _ => true)).cached 0) :=
  ⟨by decide, by decide, by unfold registeredInv; decide,
    (C1_name_conservation (Env.mk true 1 (fun _ => false) (fun _ => [])) 0 1 2
      (PoolState.mk (fun _ => ["rdb00_1".toList]) (fun _ => ["rdb00_0".toList])
        (fun _ => 0) (fun _ => true))
      ["rdb00_0".toList, "rdb00_1".toList] [] 0 0 invalidHandle false
      (by decide) (by decide)).2.2.2
      (by unfold registeredInv; decide)⟩

end TreefrogPool
